import Mathlib

/-!
Verification development for the FGA document access control POC
(WorkOS FGA + Pinecone vector search demo, `src/scripts/demo.js` and
`src/scripts/setupPinecone.js`).

The demo script orchestrates three external services: the WorkOS FGA
relation store and evaluator, the OpenAI embedding provider, and the
Pinecone vector index. The script itself is embedded faithfully below
(control flow, the hard-coded document ids, the catch blocks that return
empty lists). The external services are not part of the repository; their
behaviour is modelled from the specification where a claim depends on it,
and each such definition carries a doc comment saying so.
-/

/-- Error kinds from the specification's error taxonomy (section 7). -/
inductive ErrKind where
  | invalidRelation
  | notAuthorized
  | storeUnavailable
  | providerError
  | indexUnavailable
  | timeout
deriving DecidableEq, Repr

/-- A warrant: a single granted relation fact
`(resourceType, resourceId, relation, subjectType, subjectId)`,
as written by `workos.fga.writeWarrant` in `demo.js`. -/
structure Warrant where
  resourceType : String
  resourceId : String
  relation : String
  subjectType : String
  subjectId : String
deriving DecidableEq, Repr

/-- The relation store state: the set of currently present warrants,
kept as a duplicate-free list. -/
abbrev Store := List Warrant

/-- Modelled from the spec: relation store write with `op = Create`
(section 4.1). Creating an already-present warrant is an idempotent
no-op; otherwise the warrant is added. -/
def createWarrant (w : Warrant) (s : Store) : Store :=
  if w ∈ s then s else s ++ [w]

/-- Modelled from the spec: relation store write with `op = Delete`
(section 4.1). Deleting an absent warrant is an idempotent no-op;
otherwise the warrant is removed. -/
def deleteWarrant (w : Warrant) (s : Store) : Store :=
  s.filter (fun v => v ≠ w)

/-- Modelled from the spec: the relation schema declared by
`defineResourceTypes.sh` (not under `src/`), as described in the spec
(section 3) and the README: resource type `document` has relations
`owner` and `viewer`, with the single inheritance rule that `owner`
implies `viewer` on the same resource. Represented as data
(resourceType, fromRelation, toRelation) per the spec's design note. -/
def inheritanceEdges : List (String × String × String) :=
  [("document", "owner", "viewer")]

/-- Modelled from the spec: bounded transitive-reflexive closure of the
inheritance rules (section 4.2 requires a fixed-point computation over
the acyclic implication graph). `reachesFuel n t a b` holds when holding
relation `a` on a resource of type `t` implies holding relation `b`,
within `n` inheritance hops. -/
def reachesFuel : Nat → String → String → String → Bool
  | 0, _, a, b => a == b
  | n + 1, t, a, b =>
    a == b ||
      inheritanceEdges.any (fun e => e.1 == t && e.2.1 == a && reachesFuel n t e.2.2 b)

/-- Modelled from the spec: full inheritance closure; the fuel bound
`inheritanceEdges.length + 1` exceeds the longest acyclic chain. -/
def reaches (t a b : String) : Bool :=
  reachesFuel (inheritanceEdges.length + 1) t a b

/-- Modelled from the spec: the FGA evaluator's point check
`Check(subject, relation, resource)` (section 4.2): true when a warrant
for the subject on the resource exists whose relation reaches the asked
relation through the inheritance closure. -/
def check (s : Store) (subjectType subjectId relation resourceType resourceId : String) : Bool :=
  s.any fun w =>
    w.resourceType == resourceType && w.resourceId == resourceId &&
      w.subjectType == subjectType && w.subjectId == subjectId &&
      reaches resourceType w.relation relation

/-- Modelled from the spec: the FGA evaluator's set query
`ListAccessible(subject, relation, resourceType)` (section 4.2), the
backend of `workos.fga.query` with
`select document where user:userId is viewer` in `demo.js`: the
resource ids of the subject's warrants of the given resource type whose
relation reaches the asked relation, deduplicated. -/
def listAccessible (s : Store) (subjectType subjectId relation resourceType : String) :
    List String :=
  ((s.filter fun w =>
      w.resourceType == resourceType && w.subjectType == subjectType &&
        w.subjectId == subjectId && reaches resourceType w.relation relation).map
    (fun w => w.resourceId)).dedup

/-! Basic facts about the inheritance closure for the document schema. -/

theorem reaches_document_owner_iff (r : String) :
    reaches "document" r "owner" = true ↔ r = "owner" := by
  simp [reaches, reachesFuel, inheritanceEdges]

theorem reaches_document_viewer_iff (r : String) :
    reaches "document" r "viewer" = true ↔ r = "owner" ∨ r = "viewer" := by
  simp [reaches, reachesFuel, inheritanceEdges]
  tauto

/-! The vector index and the retrieval service (`searchPineconeWithAccess`). -/

/-- A chunk stored in the Pinecone index by `setupPinecone.js`: its
metadata carries the text and the `parentDocumentId` used by the access
filter. The similarity score of the chunk against the current query
vector is carried alongside (the backend computes it; its numeric type
is irrelevant to the claims, only its ordering). -/
structure Chunk where
  chunkId : String
  text : String
  parentDocumentId : String
  score : Int
deriving DecidableEq, Repr

/-- Insert a chunk into a list sorted by descending score. -/
def insertDesc (c : Chunk) : List Chunk → List Chunk
  | [] => [c]
  | d :: ds => if d.score ≤ c.score then c :: d :: ds else d :: insertDesc c ds

/-- Sort chunks by descending score. -/
def sortDesc : List Chunk → List Chunk
  | [] => []
  | c :: cs => insertDesc c (sortDesc cs)

/-- Modelled from the spec: the Pinecone backend's `index.query` with a
`parentDocumentId: \x7b $in: allowed \x7d` metadata filter (adapter contract,
section 4.3): keep exactly the chunks whose `parentDocumentId` is in the
allow-list, order by descending score, return at most `topK`. -/
def pineconeQuery (chunks : List Chunk) (allowed : List String) (topK : Nat) : List Chunk :=
  (sortDesc (chunks.filter (fun c => allowed.contains c.parentDocumentId))).take topK

/-- Stages of the retrieval request state machine. -/
inductive Stage where
  | start
  | resolveAccess
  | noAccess
  | search
  | done
deriving DecidableEq, Repr

/-- Events recorded while a retrieval request executes, in program
order: stage transitions, the FGA query, calls to the embedding
provider and the index backend, and caught errors. -/
inductive Event where
  | stage (s : Stage)
  | fgaQuery (userId : String)
  | fgaError (k : ErrKind)
  | embedCall (query : String)
  | indexQuery (filter : List String)
  | searchError (k : ErrKind)
deriving DecidableEq, Repr

/-- Environment of one retrieval request: the responses the three
external services would give. `fgaResp` is the response to the
`select document where user is viewer` query; `embedResp` and
`indexResp` are the outcomes of the embedding call and the index
backend call (the demo treats any thrown error uniformly). -/
structure Env where
  fgaResp : Except ErrKind (List String)
  embedResp : Except ErrKind Unit
  indexResp : Except ErrKind Unit
  chunks : List Chunk

/-- Embedding of `getAccessibleDocuments(userId)` in `demo.js`: issue
the FGA query and map each result to its `resourceId`; the catch block
turns any error into the empty list. Returns the list together with the
events it produced. -/
def getAccessibleDocuments (userId : String) (resp : Except ErrKind (List String)) :
    List String × List Event :=
  match resp with
  | .ok docs => (docs, [.fgaQuery userId])
  | .error k => ([], [.fgaQuery userId, .fgaError k])

/-- Embedding of `searchPineconeWithAccess(userId, searchQuery)` in
`demo.js`: resolve the accessible documents first; if none, return `[]`
without touching the embedding provider or the index; otherwise embed
the query, then query the index filtered to the accessible documents;
the catch block turns any thrown error into `[]`. -/
def searchPineconeWithAccess (env : Env) (userId query : String) :
    List Chunk × List Event :=
  let resolved := getAccessibleDocuments userId env.fgaResp
  let accessibleDocs := resolved.1
  let pre := Event.stage .start :: resolved.2 ++ [Event.stage .resolveAccess]
  if accessibleDocs.isEmpty then
    ([], pre ++ [.stage .noAccess, .stage .done])
  else
    match env.embedResp with
    | .error k =>
      ([], pre ++ [.stage .search, .embedCall query, .searchError k, .stage .done])
    | .ok _ =>
      match env.indexResp with
      | .error k =>
        ([], pre ++ [.stage .search, .embedCall query, .indexQuery accessibleDocs,
          .searchError k, .stage .done])
      | .ok _ =>
        (pineconeQuery env.chunks accessibleDocs 5,
          pre ++ [.stage .search, .embedCall query, .indexQuery accessibleDocs,
            .stage .done])

/-! The administrative demo operations of `demo.js`. -/

/-- The two documents hard-coded in `shareDocumentAccess`. -/
def documentsToShare : List String :=
  ["doc_sherlock-holmes", "doc_federalist-papers"]

/-- Embedding of `shareDocumentAccess(ownerId, newUserId)` in `demo.js`:
one owner check against `doc_sherlock-holmes` only; on failure return
false and write nothing; on success create viewer warrants for the
grantee on both hard-coded documents. Returns the success flag and the
updated store. -/
def shareDocumentAccess (s : Store) (ownerId newUserId : String) : Bool × Store :=
  if check s "user" ownerId "owner" "document" "doc_sherlock-holmes" then
    (true,
      documentsToShare.foldl
        (fun st docId =>
          createWarrant ⟨"document", docId, "viewer", "user", newUserId⟩ st)
        s)
  else
    (false, s)

/-- Embedding of `createBasicWarrants()` in `demo.js`: grant user1 owner
of Sherlock Holmes, then user2 viewer of the Federalist Papers. -/
def createBasicWarrants (s : Store) : Store :=
  createWarrant ⟨"document", "doc_federalist-papers", "viewer", "user", "user2"⟩
    (createWarrant ⟨"document", "doc_sherlock-holmes", "owner", "user", "user1"⟩ s)

/-- The three warrants hard-coded in `cleanupWarrants` in `demo.js`. -/
def cleanupList : List Warrant :=
  [⟨"document", "doc_sherlock-holmes", "owner", "user", "user1"⟩,
   ⟨"document", "doc_federalist-papers", "viewer", "user", "user2"⟩,
   ⟨"document", "doc_sherlock-holmes", "viewer", "user", "user3"⟩]

/-- Embedding of `cleanupWarrants()` in `demo.js`: delete the three
hard-coded warrants, one write per warrant. -/
def cleanupWarrants (s : Store) : Store :=
  cleanupList.foldl (fun st w => deleteWarrant w st) s

/-- The module-scope binding of the identifier `searchQuery` that
`runDemo()` passes to its search calls in the version of `demo.js` that
shares and cleans up: no declaration of `searchQuery` exists in that
module (the alternate version declares it inside its own `runDemo`), so
the lookup fails, which in an ES module is a thrown ReferenceError. -/
def searchQueryBinding : Option String := none

/-- The warrant-store effect of `runDemo()` in `demo.js`: create the
basic warrants, then run the searches, the share from user1 to user4,
and the cleanup, all inside one try/catch whose catch only logs. The
first search call evaluates the identifier `searchQuery`; because that
binding is absent, the evaluation throws and control jumps to the
catch, so neither `shareDocumentAccess` nor `cleanupWarrants` runs and
the store keeps exactly what `createBasicWarrants` wrote. Were the
binding present, the searches read the store without writing it, the
share would run, and the cleanup would run unconditionally after it. -/
def runDemoWarrants (s : Store) : Store :=
  let s1 := createBasicWarrants s
  match searchQueryBinding with
  | none => s1
  | some _ =>
    cleanupWarrants (shareDocumentAccess s1 "user1" "user4").2

/-! Demo fixtures: the warrants the demo script writes. -/

def w_user1_owner_sherlock : Warrant :=
  ⟨"document", "doc_sherlock-holmes", "owner", "user", "user1"⟩

def w_user2_viewer_federalist : Warrant :=
  ⟨"document", "doc_federalist-papers", "viewer", "user", "user2"⟩

def w_user3_viewer_sherlock : Warrant :=
  ⟨"document", "doc_sherlock-holmes", "viewer", "user", "user3"⟩

def w_user4_viewer_sherlock : Warrant :=
  ⟨"document", "doc_sherlock-holmes", "viewer", "user", "user4"⟩

def w_user4_viewer_federalist : Warrant :=
  ⟨"document", "doc_federalist-papers", "viewer", "user", "user4"⟩

/-! Helper lemmas about the sorted, filtered index query. -/

theorem mem_insertDesc (c d : Chunk) (l : List Chunk) :
    c ∈ insertDesc d l ↔ c = d ∨ c ∈ l := by
  induction l with
  | nil => simp [insertDesc]
  | cons x xs ih =>
    by_cases h : x.score ≤ d.score
    · simp [insertDesc, h]
    · simp [insertDesc, h, ih]
      tauto

theorem mem_sortDesc (c : Chunk) (l : List Chunk) :
    c ∈ sortDesc l ↔ c ∈ l := by
  induction l with
  | nil => simp [sortDesc]
  | cons x xs ih => simp [sortDesc, mem_insertDesc, ih]

theorem pineconeQuery_mem_allowed (chunks : List Chunk) (allowed : List String)
    (topK : Nat) (c : Chunk) (h : c ∈ pineconeQuery chunks allowed topK) :
    c.parentDocumentId ∈ allowed := by
  have hc := List.take_subset topK _ h
  rw [pineconeQuery] at h
  rw [mem_sortDesc] at hc
  have := (List.mem_filter.mp hc).2
  simpa using this

/-- Claim C1: for every retrieval request by a subject S that reaches
the Search stage, every result returned has a `parentDocumentId` in the
allow-list resolved by `ListAccessible(S, viewer, document)` during that
request; no chunk from a document outside that set is returned. The FGA
response of the request is the resolved allow-list; the embedding and
index outcomes and the index contents are arbitrary. -/
theorem claim_C1_no_leak (store : Store) (er ir : Except ErrKind Unit)
    (chunks : List Chunk) (S q : String) (c : Chunk)
    (h : c ∈ (searchPineconeWithAccess
      ⟨Except.ok (listAccessible store "user" S "viewer" "document"), er, ir, chunks⟩
      S q).1) :
    c.parentDocumentId ∈ listAccessible store "user" S "viewer" "document" := by
  rw [searchPineconeWithAccess] at h
  simp only [getAccessibleDocuments] at h
  by_cases he : (listAccessible store "user" S "viewer" "document").isEmpty
  · simp [he] at h
  · simp only [he, if_neg, Bool.false_eq_true] at h
    cases er with
    | error k => simp at h
    | ok u =>
      cases ir with
      | error k => simp at h
      | ok v =>
        simp only [] at h
        exact pineconeQuery_mem_allowed chunks _ 5 c h

/-- A concrete chunk used to exercise the retrieval theorems. -/
def chunkSherlock : Chunk :=
  ⟨"chunk_doc_sherlock-holmes_1_0", "A Scandal in Bohemia", "doc_sherlock-holmes", 7⟩

theorem claim_C1_no_leak_witness :
    chunkSherlock.parentDocumentId ∈
      listAccessible [w_user1_owner_sherlock] "user" "user1" "viewer" "document" :=
  claim_C1_no_leak [w_user1_owner_sherlock] (Except.ok ()) (Except.ok ())
    [chunkSherlock] "user1" "justice" chunkSherlock (by decide)

/-- Claim C3: a retrieval request whose resolved allow-list is empty
returns an empty result set, and its trace contains no call to the
embedding provider and no query to the index backend; in particular no
filter at all, empty or otherwise, is ever handed to the backend. -/
theorem claim_C3_empty_shortcircuit (env : Env) (u q : String)
    (h : (getAccessibleDocuments u env.fgaResp).1 = []) :
    (searchPineconeWithAccess env u q).1 = []
    ∧ (∀ qq, Event.embedCall qq ∉ (searchPineconeWithAccess env u q).2)
    ∧ (∀ f, Event.indexQuery f ∉ (searchPineconeWithAccess env u q).2) := by
  rw [searchPineconeWithAccess]
  simp only [h, List.isEmpty_nil, if_pos]
  cases henv : env.fgaResp with
  | ok docs => simp [getAccessibleDocuments, henv]
  | error k => simp [getAccessibleDocuments, henv]

theorem claim_C3_empty_shortcircuit_witness :
    ((searchPineconeWithAccess ⟨Except.ok [], Except.ok (), Except.ok (),
        [chunkSherlock]⟩ "user3" "justice").1 = [])
    ∧ Event.embedCall "justice" ∉
        (searchPineconeWithAccess ⟨Except.ok [], Except.ok (), Except.ok (),
          [chunkSherlock]⟩ "user3" "justice").2
    ∧ Event.indexQuery [] ∉
        (searchPineconeWithAccess ⟨Except.ok [], Except.ok (), Except.ok (),
          [chunkSherlock]⟩ "user3" "justice").2 := by
  obtain ⟨h1, h2, h3⟩ := claim_C3_empty_shortcircuit
    ⟨Except.ok [], Except.ok (), Except.ok (), [chunkSherlock]⟩ "user3" "justice" rfl
  exact ⟨h1, h2 "justice", h3 []⟩

/-- Claim C4 counterexample: a failed authorization query IS coerced
into an empty accessible-document set and an empty search result. With
the FGA backend failing with `StoreUnavailable`, `getAccessibleDocuments`
returns the empty list (its catch block) and `searchPineconeWithAccess`
returns the empty result set, indistinguishable to the caller from the
EmptyAccessSet terminal state; no error kind reaches the caller. -/
theorem claim_C4_counterexample :
    (getAccessibleDocuments "user1" (Except.error ErrKind.storeUnavailable)).1 = []
    ∧ (searchPineconeWithAccess
        ⟨Except.error ErrKind.storeUnavailable, Except.ok (), Except.ok (),
          [chunkSherlock]⟩ "user1" "justice").1 = [] := by
  constructor <;> rfl

/-- Claim C4 as amended: no failure is propagated. Every failure of the
authorization query, the embedding provider or the index backend is
caught locally and coerced into an empty list result: the FGA catch
block in `getAccessibleDocuments` returns the empty document list, and
the catch block in `searchPineconeWithAccess` returns the empty result
set, so the caller never sees an error kind. -/
theorem claim_C4_amended_errors_coerced (k : ErrKind) (u q : String)
    (docs : List String) (chunks : List Chunk) (er : Except ErrKind Unit)
    (ir : Except ErrKind Unit) :
    (getAccessibleDocuments u (Except.error k)).1 = []
    ∧ (searchPineconeWithAccess ⟨Except.error k, er, ir, chunks⟩ u q).1 = []
    ∧ (searchPineconeWithAccess ⟨Except.ok docs, Except.error k, ir, chunks⟩ u q).1 = []
    ∧ (searchPineconeWithAccess ⟨Except.ok docs, Except.ok (), Except.error k, chunks⟩
        u q).1 = [] := by
  refine ⟨rfl, rfl, ?_, ?_⟩
  · rw [searchPineconeWithAccess]
    by_cases h : (docs : List String).isEmpty <;> simp [getAccessibleDocuments, h]
  · rw [searchPineconeWithAccess]
    by_cases h : (docs : List String).isEmpty <;> simp [getAccessibleDocuments, h]

/-- Claim C5: List/Check equivalence. For every store state, subject and
relation, a resource id is in the set returned by `listAccessible`
exactly when a direct `check` for that subject, relation and resource
returns true: nothing a direct check approves is omitted, nothing a
direct check rejects is included. -/
theorem claim_C5_list_check_equiv (s : Store)
    (subjectType subjectId relation resourceType r : String) :
    r ∈ listAccessible s subjectType subjectId relation resourceType ↔
      check s subjectType subjectId relation resourceType r = true := by
  simp only [listAccessible, check, List.mem_dedup, List.mem_map, List.mem_filter,
    List.any_eq_true, Bool.and_eq_true, beq_iff_eq]
  aesop

/-- Claim C6: inheritance soundness. In every store state, if a subject
checks true for `owner` on a document then the same subject checks true
for `viewer` on that document, through the schema's owner-implies-viewer
rule alone, with no separate viewer warrant stored. -/
theorem claim_C6_owner_implies_viewer (s : Store) (S R : String)
    (h : check s "user" S "owner" "document" R = true) :
    check s "user" S "viewer" "document" R = true := by
  rw [check, List.any_eq_true] at h ⊢
  obtain ⟨w, hw, hcond⟩ := h
  refine ⟨w, hw, ?_⟩
  rw [Bool.and_eq_true, Bool.and_eq_true, Bool.and_eq_true, Bool.and_eq_true] at hcond ⊢
  obtain ⟨⟨⟨⟨h1, h2⟩, h3⟩, h4⟩, h5⟩ := hcond
  have hrel : w.relation = "owner" := (reaches_document_owner_iff w.relation).mp h5
  refine ⟨⟨⟨⟨h1, h2⟩, h3⟩, h4⟩, ?_⟩
  rw [hrel]
  exact (reaches_document_viewer_iff "owner").mpr (Or.inl rfl)

theorem claim_C6_owner_implies_viewer_witness :
    check [w_user1_owner_sherlock] "user" "user1" "viewer" "document"
      "doc_sherlock-holmes" = true :=
  claim_C6_owner_implies_viewer [w_user1_owner_sherlock] "user1"
    "doc_sherlock-holmes" (by decide)

/-- A warrant is determined by its five fields. -/
theorem warrant_eq_mk (w : Warrant) (rt ri rel st si : String)
    (h1 : w.resourceType = rt) (h2 : w.resourceId = ri) (h3 : w.relation = rel)
    (h4 : w.subjectType = st) (h5 : w.subjectId = si) :
    w = ⟨rt, ri, rel, st, si⟩ := by
  cases w
  subst h1; subst h2; subst h3; subst h4; subst h5
  rfl

/-- Claim C7: revocation precision. Deleting the owner warrant for
(S, R) makes the owner check false, and also makes the inherited viewer
check false when no independently granted viewer warrant for (S, R) is
in the store; and deleting the viewer warrant for (S, R) never changes
the owner check for the same pair. -/
theorem claim_C7_revocation_precision (s : Store) (S R : String) :
    check (deleteWarrant ⟨"document", R, "owner", "user", S⟩ s)
        "user" S "owner" "document" R = false
    ∧ ((⟨"document", R, "viewer", "user", S⟩ : Warrant) ∉ s →
        check (deleteWarrant ⟨"document", R, "owner", "user", S⟩ s)
          "user" S "viewer" "document" R = false)
    ∧ check (deleteWarrant ⟨"document", R, "viewer", "user", S⟩ s)
        "user" S "owner" "document" R = check s "user" S "owner" "document" R := by
  refine ⟨?_, ?_, ?_⟩
  · rw [Bool.eq_false_iff]
    intro habs
    rw [check, List.any_eq_true] at habs
    obtain ⟨w, hw, hcond⟩ := habs
    rw [deleteWarrant, List.mem_filter] at hw
    have hne : w ≠ (⟨"document", R, "owner", "user", S⟩ : Warrant) :=
      of_decide_eq_true hw.2
    rw [Bool.and_eq_true, Bool.and_eq_true, Bool.and_eq_true, Bool.and_eq_true] at hcond
    obtain ⟨⟨⟨⟨c1, c2⟩, c3⟩, c4⟩, c5⟩ := hcond
    have hrel : w.relation = "owner" := (reaches_document_owner_iff w.relation).mp c5
    exact hne (warrant_eq_mk w _ _ _ _ _ (eq_of_beq c1) (eq_of_beq c2) hrel
      (eq_of_beq c3) (eq_of_beq c4))
  · intro hno
    rw [Bool.eq_false_iff]
    intro habs
    rw [check, List.any_eq_true] at habs
    obtain ⟨w, hw, hcond⟩ := habs
    rw [deleteWarrant, List.mem_filter] at hw
    have hne : w ≠ (⟨"document", R, "owner", "user", S⟩ : Warrant) :=
      of_decide_eq_true hw.2
    rw [Bool.and_eq_true, Bool.and_eq_true, Bool.and_eq_true, Bool.and_eq_true] at hcond
    obtain ⟨⟨⟨⟨c1, c2⟩, c3⟩, c4⟩, c5⟩ := hcond
    rcases (reaches_document_viewer_iff w.relation).mp c5 with hrel | hrel
    · exact hne (warrant_eq_mk w _ _ _ _ _ (eq_of_beq c1) (eq_of_beq c2) hrel
        (eq_of_beq c3) (eq_of_beq c4))
    · have hwv : w = (⟨"document", R, "viewer", "user", S⟩ : Warrant) :=
        warrant_eq_mk w _ _ _ _ _ (eq_of_beq c1) (eq_of_beq c2) hrel
          (eq_of_beq c3) (eq_of_beq c4)
      exact hno (hwv ▸ hw.1)
  · cases hcb : check s "user" S "owner" "document" R with
    | false =>
      rw [Bool.eq_false_iff]
      intro habs
      rw [check, List.any_eq_true] at habs
      obtain ⟨w, hw, hcond⟩ := habs
      rw [deleteWarrant, List.mem_filter] at hw
      rw [Bool.eq_false_iff] at hcb
      exact hcb (by rw [check, List.any_eq_true]; exact ⟨w, hw.1, hcond⟩)
    | true =>
      rw [check, List.any_eq_true] at hcb ⊢
      obtain ⟨w, hw, hcond⟩ := hcb
      refine ⟨w, ?_, hcond⟩
      rw [deleteWarrant, List.mem_filter]
      refine ⟨hw, decide_eq_true ?_⟩
      intro heq
      rw [Bool.and_eq_true, Bool.and_eq_true, Bool.and_eq_true, Bool.and_eq_true] at hcond
      have hrel : w.relation = "owner" :=
        (reaches_document_owner_iff w.relation).mp hcond.2
      rw [heq] at hrel
      have hv : ("viewer" : String) = "owner" := hrel
      exact absurd hv (by decide)

theorem claim_C7_revocation_precision_witness :
    (check (deleteWarrant ⟨"document", "doc_sherlock-holmes", "owner", "user", "user1"⟩
        [w_user1_owner_sherlock, w_user2_viewer_federalist])
      "user" "user1" "owner" "document" "doc_sherlock-holmes" = false)
    ∧ (check (deleteWarrant ⟨"document", "doc_sherlock-holmes", "owner", "user", "user1"⟩
        [w_user1_owner_sherlock, w_user2_viewer_federalist])
      "user" "user1" "viewer" "document" "doc_sherlock-holmes" = false)
    ∧ (check (deleteWarrant ⟨"document", "doc_sherlock-holmes", "viewer", "user", "user1"⟩
        [w_user1_owner_sherlock, w_user2_viewer_federalist])
      "user" "user1" "owner" "document" "doc_sherlock-holmes"
        = check [w_user1_owner_sherlock, w_user2_viewer_federalist]
            "user" "user1" "owner" "document" "doc_sherlock-holmes") := by
  obtain ⟨h1, h2, h3⟩ := claim_C7_revocation_precision
    [w_user1_owner_sherlock, w_user2_viewer_federalist] "user1" "doc_sherlock-holmes"
  exact ⟨h1, h2 (by decide), h3⟩

/-- Claim C8: relation-store writes are idempotent. Creating an
already-present warrant and deleting an absent warrant both leave the
store unchanged, and repeating a create or a delete of the same warrant
equals doing it once. -/
theorem claim_C8_idempotent_writes (w : Warrant) (s : Store) :
    (w ∈ s → createWarrant w s = s)
    ∧ (w ∉ s → deleteWarrant w s = s)
    ∧ createWarrant w (createWarrant w s) = createWarrant w s
    ∧ deleteWarrant w (deleteWarrant w s) = deleteWarrant w s := by
  refine ⟨?_, ?_, ?_, ?_⟩
  · intro h
    rw [createWarrant, if_pos h]
  · intro h
    rw [deleteWarrant]
    apply List.filter_eq_self.mpr
    intro v hv
    exact decide_eq_true (fun he => h (he ▸ hv))
  · have hmem : w ∈ createWarrant w s := by
      rw [createWarrant]
      by_cases h : w ∈ s
      · rw [if_pos h]; exact h
      · rw [if_neg h]; exact List.mem_append_right s (List.mem_singleton.mpr rfl)
    rw [createWarrant, if_pos hmem]
  · simp only [deleteWarrant, List.filter_filter]
    congr 1
    funext v
    cases h : decide (v ≠ w) <;> simp [h]

theorem claim_C8_idempotent_writes_witness :
    createWarrant w_user1_owner_sherlock [w_user1_owner_sherlock]
        = [w_user1_owner_sherlock]
    ∧ deleteWarrant w_user1_owner_sherlock [w_user2_viewer_federalist]
        = [w_user2_viewer_federalist] := by
  refine ⟨?_, ?_⟩
  · exact (claim_C8_idempotent_writes w_user1_owner_sherlock
      [w_user1_owner_sherlock]).1 (by decide)
  · exact (claim_C8_idempotent_writes w_user1_owner_sherlock
      [w_user2_viewer_federalist]).2.1 (by decide)

/-- Claim C2 counterexample: with a store in which user1 owns
Sherlock Holmes but holds nothing on the Federalist Papers, the owner
check for the Federalist Papers is false, yet the share succeeds and a
viewer warrant for the Federalist Papers (and for Sherlock Holmes) is
created for user4: the share checks ownership of Sherlock Holmes only
and never checks the second document of the batch. -/
theorem claim_C2_counterexample :
    check [w_user1_owner_sherlock] "user" "user1" "owner" "document"
        "doc_federalist-papers" = false
    ∧ (shareDocumentAccess [w_user1_owner_sherlock] "user1" "user4").1 = true
    ∧ w_user4_viewer_federalist ∈
        (shareDocumentAccess [w_user1_owner_sherlock] "user1" "user4").2
    ∧ w_user4_viewer_sherlock ∈
        (shareDocumentAccess [w_user1_owner_sherlock] "user1" "user4").2 := by
  refine ⟨by decide, by decide, by decide, by decide⟩

/-- Claim C2 as amended: the share performs a single owner check,
against `doc_sherlock-holmes` only. If that one check fails the whole
batch is rejected (returns false) and no warrant is created; if it
passes, viewer warrants for the grantee are created on both hard-coded
documents, regardless of the owner's relation to
`doc_federalist-papers`. -/
theorem claim_C2_amended_single_check (s : Store) (ownerId newUserId : String) :
    (check s "user" ownerId "owner" "document" "doc_sherlock-holmes" = false →
      shareDocumentAccess s ownerId newUserId = (false, s))
    ∧ (check s "user" ownerId "owner" "document" "doc_sherlock-holmes" = true →
      shareDocumentAccess s ownerId newUserId =
        (true,
          createWarrant ⟨"document", "doc_federalist-papers", "viewer", "user", newUserId⟩
            (createWarrant ⟨"document", "doc_sherlock-holmes", "viewer", "user", newUserId⟩
              s))) := by
  constructor
  · intro h
    simp [shareDocumentAccess, h]
  · intro h
    simp [shareDocumentAccess, h, documentsToShare]

theorem claim_C2_amended_single_check_witness :
    shareDocumentAccess [] "user1" "user4" = (false, [])
    ∧ shareDocumentAccess [w_user1_owner_sherlock] "user1" "user4" =
        (true,
          createWarrant
            ⟨"document", "doc_federalist-papers", "viewer", "user", "user4"⟩
            (createWarrant
              ⟨"document", "doc_sherlock-holmes", "viewer", "user", "user4"⟩
              [w_user1_owner_sherlock])) := by
  refine ⟨?_, ?_⟩
  · exact (claim_C2_amended_single_check [] "user1" "user4").1 (by decide)
  · exact (claim_C2_amended_single_check [w_user1_owner_sherlock] "user1" "user4").2
      (by decide)

/-- Claim C9: within every retrieval request the stages occur in the
fixed order Start, ResolveAccess, then either NoAccess or Search, then
Done. The trace decomposes as Start, then the allow-list resolution
events, then ResolveAccess, then a middle segment, then Done; the
middle segment is exactly NoAccess when the resolved allow-list is
empty and starts with Search otherwise; every index query in the middle
segment carries exactly this request's resolved allow-list as its
filter; and no embedding call or index query occurs among the
resolution events, i.e. before ResolveAccess completes. -/
theorem claim_C9_stage_order (env : Env) (u q : String) :
    ∃ mid : List Event,
      (searchPineconeWithAccess env u q).2 =
          Event.stage .start :: (getAccessibleDocuments u env.fgaResp).2 ++
            Event.stage .resolveAccess :: mid ++ [Event.stage .done]
      ∧ ((getAccessibleDocuments u env.fgaResp).1.isEmpty = true →
          mid = [Event.stage .noAccess])
      ∧ ((getAccessibleDocuments u env.fgaResp).1.isEmpty = false →
          mid.head? = some (Event.stage .search))
      ∧ (∀ f, Event.indexQuery f ∈ mid → f = (getAccessibleDocuments u env.fgaResp).1)
      ∧ (∀ qq, Event.embedCall qq ∉ (getAccessibleDocuments u env.fgaResp).2)
      ∧ (∀ f, Event.indexQuery f ∉ (getAccessibleDocuments u env.fgaResp).2) := by
  rcases henv : env.fgaResp with k | docs
  · refine ⟨[Event.stage .noAccess], ?_, ?_, ?_, ?_, ?_, ?_⟩ <;>
      simp [searchPineconeWithAccess, getAccessibleDocuments, henv]
  · cases hdocs : docs.isEmpty with
    | true =>
      refine ⟨[Event.stage .noAccess], ?_, ?_, ?_, ?_, ?_, ?_⟩ <;>
        simp [searchPineconeWithAccess, getAccessibleDocuments, henv, hdocs]
    | false =>
      rcases hembed : env.embedResp with k | uu
      · refine ⟨[Event.stage .search, Event.embedCall q, Event.searchError k],
          ?_, ?_, ?_, ?_, ?_, ?_⟩ <;>
          simp [searchPineconeWithAccess, getAccessibleDocuments, henv, hdocs, hembed]
      · rcases hindex : env.indexResp with k | vv
        · refine ⟨[Event.stage .search, Event.embedCall q, Event.indexQuery docs,
            Event.searchError k], ?_, ?_, ?_, ?_, ?_, ?_⟩ <;>
            simp [searchPineconeWithAccess, getAccessibleDocuments, henv, hdocs,
              hembed, hindex]
        · refine ⟨[Event.stage .search, Event.embedCall q, Event.indexQuery docs],
            ?_, ?_, ?_, ?_, ?_, ?_⟩ <;>
            simp [searchPineconeWithAccess, getAccessibleDocuments, henv, hdocs,
              hembed, hindex]

theorem claim_C9_stage_order_witness :
    (searchPineconeWithAccess
        ⟨Except.ok ["doc_sherlock-holmes"], Except.ok (), Except.ok (),
          [chunkSherlock]⟩ "user1" "justice").2.head? =
      some (Event.stage Stage.start) := by
  obtain ⟨mid, hdecomp, -, -, -, -, -⟩ := claim_C9_stage_order
    ⟨Except.ok ["doc_sherlock-holmes"], Except.ok (), Except.ok (),
      [chunkSherlock]⟩ "user1" "justice"
  rw [hdecomp]
  rfl

/-- Claim C10: the end-to-end store state the claim describes is
unreachable in the script as written. Because the `searchQuery` binding
is absent, the demo run from an empty store ends with exactly the two
basic warrants: user4 never receives its viewer warrants and the
cleanup never deletes anything. The remaining conjuncts record the
claimed behaviour of the steps the demo was meant to reach, evaluated
in isolation: the share step never creates the user3 viewer warrant,
and cleanup applied to the post-share store removes exactly the three
hard-coded warrants, leaving precisely user4's two viewer warrants. -/
theorem claim_C10_demo_aborts :
    runDemoWarrants [] = [w_user1_owner_sherlock, w_user2_viewer_federalist]
    ∧ w_user4_viewer_sherlock ∉ runDemoWarrants []
    ∧ w_user4_viewer_federalist ∉ runDemoWarrants []
    ∧ w_user3_viewer_sherlock ∉
        (shareDocumentAccess (createBasicWarrants []) "user1" "user4").2
    ∧ cleanupWarrants
        (shareDocumentAccess (createBasicWarrants []) "user1" "user4").2
        = [w_user4_viewer_sherlock, w_user4_viewer_federalist] := by
  refine ⟨by decide, by decide, by decide, by decide, by decide⟩
